import Mathlib

/-!
Verification of the BreezeReader pacing engine and retention scheduler.

Shallow embedding of the reading/vocabulary core:
* `getDelay`, `playNext`-derived pacer step (`tick`, `runTicks`) — from
  `src/components/RSVPReader.tsx`
* `getORPIndex`, `renderSingleWord` — from `src/components/RSVPReader.tsx`
* `processBionicText`'s per-part transform (`bionicWordRender`) — from
  `src/utils/textProcessor.tsx`
* `reviewQueue`, `handleReview`-derived `grade` — from
  `src/components/VocabularyView.tsx`

Strings are `List Char`; JS numbers used for money-free arithmetic are `Nat`
(timestamps, indices), `Int` (proficiency arithmetic, which goes through
negative intermediate values), or `ℚ` (delays and durations, which divide).
-/

namespace BreezeReader

/-- `ReadingMode` from `src/types.ts`. -/
inductive ReadingMode where
  | rsvpSingle
  | rsvpChunk
  | flow
  | classic
  deriving DecidableEq, Repr

/-- `word.match(/[c...]$/)`: does the token end with one of the given
characters? An empty token matches nothing. -/
def endsWithAny (word : List Char) (cs : List Char) : Bool :=
  match word.getLast? with
  | some c => cs.contains c
  | none => false

/-- `getDelay` from `src/components/RSVPReader.tsx` (lines 63–73):
`baseDelay = (60 / settings.wpm) * 1000 * (mode === 'rsvp-chunk' ? chunkSize : 1)`,
then one multiplier picked by the if/else-if chain. -/
def getDelay (wpm chunkSize : ℚ) (mode : ReadingMode) (word : List Char) : ℚ :=
  let baseDelay := 60 / wpm * 1000 * (if mode = ReadingMode.rsvpChunk then chunkSize else 1)
  let multiplier : ℚ :=
    if endsWithAny word ['.', '!', '?'] then 2
    else if endsWithAny word [',', ';', ':'] then 3 / 2
    else if 10 < word.length then 6 / 5
    else 1
  baseDelay * multiplier

/-- The spec's delay formula, written from the spec's words:
`base = (60000 / wpm) * (chunkSize if mode==chunk else 1)`, multiplier by
priority ×2.0 / ×1.5 / ×1.2 / ×1.0. Used to compare against `getDelay`. -/
def delaySpec (wpm chunkSize : ℚ) (mode : ReadingMode) (word : List Char) : ℚ :=
  let base := 60000 / wpm * (if mode = ReadingMode.rsvpChunk then chunkSize else 1)
  let multiplier : ℚ :=
    if endsWithAny word ['.', '!', '?'] then 2
    else if endsWithAny word [',', ';', ':'] then 3 / 2
    else if 10 < word.length then 6 / 5
    else 1
  base * multiplier

/-- Events the pacing controller emits (`onPositionChange`, `onSessionEnd`). -/
inductive PacerEvent where
  | positionChanged : Nat → PacerEvent
  | sessionEnded : Nat → Nat → ℚ → PacerEvent
  deriving DecidableEq, Repr

/-- The pacer state owned by `RSVPReader`: `wordIndex` and `isPlaying`. -/
structure PacerState where
  position : Nat
  isPlaying : Bool
  deriving DecidableEq, Repr

/-- `playNext` from `src/components/RSVPReader.tsx` (lines 75–88), as one
tick of the playback loop.  While playing, `next = position + step`; if
`next >= len` the reader stops (`setIsPlaying(false)`), keeps `position`
(`return prev`) and, when `startTime` is set, emits
`onSessionEnd(wpm, len, (now - startTime) / 1000)`; otherwise the position
advances and `onPositionChange(next)` fires.  A tick can only be scheduled
while playing, so a non-playing state is left unchanged. -/
def tick (len step : Nat) (startTime : Option ℚ) (wpm : Nat) (now : ℚ)
    (s : PacerState) : PacerState × List PacerEvent :=
  if s.isPlaying then
    if len ≤ s.position + step then
      ({ position := s.position, isPlaying := false },
        match startTime with
        | some t0 => [PacerEvent.sessionEnded wpm len ((now - t0) / 1000)]
        | none => [])
    else
      ({ position := s.position + step, isPlaying := true },
        [PacerEvent.positionChanged (s.position + step)])
  else (s, [])

/-- The state part of `tick` (independent of the session bookkeeping). -/
def tickState (len step : Nat) (s : PacerState) : PacerState :=
  if s.isPlaying then
    if len ≤ s.position + step then { position := s.position, isPlaying := false }
    else { position := s.position + step, isPlaying := true }
  else s

/-- `N` ticks from the initial state (position `0`, playing). -/
def runTicks (len step : Nat) : Nat → PacerState
  | 0 => { position := 0, isPlaying := true }
  | n + 1 => tickState len step (runTicks len step n)

/-- `getORPIndex` from `src/components/RSVPReader.tsx` (lines 172–178). -/
def getORPIndex (len : Nat) : Nat :=
  if len ≤ 1 then 0
  else if len ≤ 5 then 1
  else if len ≤ 9 then 2
  else if len ≤ 13 then 3
  else 4

/-- The ORP bucket rule as the spec words it:
`len<=1→0; len<=5→1; len<=9→2; len<=13→3; else→4`. -/
def orpSpec (len : Nat) : Nat :=
  if len ≤ 1 then 0
  else if len ≤ 5 then 1
  else if len ≤ 9 then 2
  else if len ≤ 13 then 3
  else 4

/-- `renderSingleWord`'s split (lines 180–188 of `RSVPReader.tsx`):
`left = word.substring(0, orp)`, `center = word.substring(orp, orp+1)`,
`right = word.substring(orp+1)`. -/
def renderSingleWord (word : List Char) : List Char × List Char × List Char :=
  let orp := getORPIndex word.length
  (word.take orp, (word.drop orp).take 1, word.drop (orp + 1))

/-- `VocabularyWord` from `src/types.ts`.  The legacy `VocabularyWord` type
(`src/unnamed/part_000`) has no SRS fields, so entries persisted under it
can lack `proficiency` / `nextReview`: both are `Option`-valued, `none`
standing for an absent (JS `undefined`) field. -/
structure VocabWord where
  id : Nat
  word : String
  definition : String
  examples : List String
  date : Nat
  proficiency : Option Int
  nextReview : Option Nat
  deriving DecidableEq, Repr

/-- `LibraryItem` from `src/types.ts` (the fields the vocabulary logic
reads; `sessions` is only consumed by the analytics view). -/
structure LibraryItem where
  id : Nat
  title : String
  content : String
  lastPosition : Nat
  date : Nat
  totalWords : Nat
  vocabulary : List VocabWord
  deriving DecidableEq, Repr

/-- Date-descending order used by `allVocab`'s comparator
`(a, b) => b.date - a.date`. -/
def dateDesc (a b : VocabWord) : Prop := b.date ≤ a.date

instance : DecidableRel dateDesc := fun a b => Nat.decLe b.date a.date

instance : IsTotal VocabWord dateDesc := ⟨fun a b => le_total b.date a.date⟩

instance : IsTrans VocabWord dateDesc := ⟨fun _ _ _ h1 h2 => le_trans h2 h1⟩

/-- `allVocab` from `src/components/VocabularyView.tsx` (lines 17–19):
`library.flatMap(item => item.vocabulary).sort((a, b) => b.date - a.date)`,
a sort into date-descending order. -/
def allVocab (library : List LibraryItem) : List VocabWord :=
  List.insertionSort dateDesc (library.flatMap fun item => item.vocabulary)

/-- The filter of `reviewQueue` (lines 25–28):
`!v.nextReview || v.nextReview <= now`.  JS `!x` is true for an absent field
and for `0`. -/
def isDue (v : VocabWord) (now : Nat) : Bool :=
  match v.nextReview with
  | none => true
  | some t => t == 0 || t ≤ now

/-- `reviewQueue` from `src/components/VocabularyView.tsx` (lines 25–28). -/
def reviewQueue (library : List LibraryItem) (now : Nat) : List VocabWord :=
  (allVocab library).filter fun v => isDue v now

/-- The grading core of `handleReview` from
`src/components/VocabularyView.tsx` (lines 31–53): starting from
`newProficiency = word.proficiency || 0` and `nextInterval = 0`, the
if/else-if chain on the rating picks the interval (minutes) and the
proficiency update, then `onUpdateWord` persists
`{ proficiency: newProficiency, nextReview: Date.now() + nextInterval*60*1000 }`.
A rating matching none of the branches leaves `nextInterval = 0` and the
proficiency untouched, and the update is still applied. -/
def grade (v : VocabWord) (rating : String) (now : Nat) : VocabWord :=
  let p0 : Int := v.proficiency.getD 0
  let nextInterval : Nat :=
    if rating = "hard" then 10
    else if rating = "good" then 24 * 60
    else if rating = "easy" then 3 * 24 * 60
    else 0
  let newProficiency : Int :=
    if rating = "hard" then max 0 (p0 - 1)
    else if rating = "good" then min 5 (p0 + 1)
    else if rating = "easy" then min 5 (p0 + 2)
    else p0
  { v with proficiency := some newProficiency,
           nextReview := some (now + nextInterval * 60 * 1000) }

/-- JS regex word character `\w = [A-Za-z0-9_]` (the source's regexes carry
no unicode flag, so `\w`/`\W` are ASCII). Note the underscore counts as a
word character. -/
def isWordChar (c : Char) : Bool :=
  ('a' ≤ c && c ≤ 'z') || ('A' ≤ c && c ≤ 'Z') || ('0' ≤ c && c ≤ '9') || c == '_'

/-- The `(\W*)` group of `part.match(/^(\W*)(.*?)(\W*)$/)` in
`src/utils/textProcessor.tsx`: the greedy leading run of non-word
characters. -/
def bionicPre (part : List Char) : List Char :=
  part.takeWhile fun c => !isWordChar c

/-- What remains of the part after the leading non-word run. -/
def bionicRest (part : List Char) : List Char :=
  part.dropWhile fun c => !isWordChar c

/-- The `(.*?)` core group: lazy, so it is the rest of the part minus its
trailing run of non-word characters (the minimal middle for which the final
`(\W*)$` group can match). -/
def bionicCore (part : List Char) : List Char :=
  ((bionicRest part).reverse.dropWhile fun c => !isWordChar c).reverse

/-- The trailing `(\W*)$` group: the trailing run of non-word characters. -/
def bionicSuf (part : List Char) : List Char :=
  ((bionicRest part).reverse.takeWhile fun c => !isWordChar c).reverse

/-- `boldLength = Math.max(1, Math.ceil(coreWord.length * boldRatio))` from
`src/utils/textProcessor.tsx` (line 29). -/
def boldLen (coreLen : Nat) (r : ℚ) : Nat :=
  (max 1 ⌈(coreLen : ℚ) * r⌉).toNat

/-- The shape of one rendered part of `processBionicText`: either the part
verbatim as a single non-emphasized unit, or
`prefixRun / bold / light / suffixRun`. -/
inductive BionicRender where
  | plain : List Char → BionicRender
  | emphasized : List Char → List Char → List Char → List Char → BionicRender
  deriving DecidableEq, Repr

/-- The per-part transform of `processBionicText`
(`src/utils/textProcessor.tsx`, lines 8–43): an all-whitespace part
(`/^\s+$/`) passes through; so does a part with an empty core word;
otherwise the core splits at `boldLength` into a bold and a light half,
wrapped by the verbatim leading/trailing runs. -/
def bionicWordRender (part : List Char) (r : ℚ) : BionicRender :=
  if part ≠ [] ∧ part.all (fun c => c.isWhitespace) then BionicRender.plain part
  else if bionicCore part = [] then BionicRender.plain part
  else
    BionicRender.emphasized (bionicPre part)
      ((bionicCore part).take (boldLen (bionicCore part).length r))
      ((bionicCore part).drop (boldLen (bionicCore part).length r))
      (bionicSuf part)

/-- A concrete entry used by counterexamples and witnesses. -/
def sampleWord : VocabWord :=
  { id := 1, word := "run", definition := "move fast", examples := [],
    date := 3, proficiency := some 1, nextReview := some 0 }

/-- A concrete entry with proficiency 2, matching the spec's
`grade(entry{proficiency:2}, "good")` example. -/
def sampleWord2 : VocabWord :=
  { id := 2, word := "walk", definition := "move slowly", examples := [],
    date := 7, proficiency := some 2, nextReview := some 9 }

/-- A legacy entry: persisted without SRS fields. -/
def legacyWord : VocabWord :=
  { id := 3, word := "old", definition := "aged", examples := [],
    date := 1, proficiency := none, nextReview := none }

/-- A concrete one-item library holding the three sample entries. -/
def sampleLibrary : List LibraryItem :=
  [{ id := 1, title := "t", content := "c", lastPosition := 0, date := 0,
     totalWords := 3, vocabulary := [sampleWord, sampleWord2, legacyWord] }]

end BreezeReader

namespace BreezeReader

/-- C3: the delay heuristic.  `getDelay` computes exactly the spec's
`base * multiplier` with `base = (60000/wpm) * (chunkSize if chunk else 1)`
and one multiplier chosen by priority, and the spec's two worked examples
hold: `delay(600, 1, "hello.") = 200` and
`delay(600, 1, "extraordinary") = 120`. -/
theorem c3_delay_formula (wpm chunkSize : ℚ) (mode : ReadingMode) (word : List Char) :
    getDelay wpm chunkSize mode word = delaySpec wpm chunkSize mode word ∧
    getDelay 600 1 ReadingMode.rsvpSingle "hello.".toList = 200 ∧
    getDelay 600 1 ReadingMode.rsvpSingle "extraordinary".toList = 120 := by
  refine ⟨?_, ?_, ?_⟩
  · unfold getDelay delaySpec
    ring
  · have h : endsWithAny "hello.".toList ['.', '!', '?'] = true := by decide
    unfold getDelay
    rw [h]
    norm_num
  · have h1 : endsWithAny "extraordinary".toList ['.', '!', '?'] = false := by decide
    have h2 : endsWithAny "extraordinary".toList [',', ';', ':'] = false := by decide
    have h3 : 10 < "extraordinary".toList.length := by decide
    unfold getDelay
    rw [h1, h2]
    simp only [Bool.false_eq_true, if_false, if_pos h3]
    norm_num

theorem tickState_playing (len step p : Nat) :
    tickState len step { position := p, isPlaying := true } =
      if len ≤ p + step then { position := p, isPlaying := false }
      else { position := p + step, isPlaying := true } := by
  simp [tickState]

theorem tickState_stopped (len step p : Nat) :
    tickState len step { position := p, isPlaying := false } =
      { position := p, isPlaying := false } := by
  simp [tickState]

/-- Closed form of the playback loop: with `q = (len-1)/c`, the first `q`
ticks advance by `c` each, the `(q+1)`-st tick stops playback at `q*c`, and
every later tick is a no-op. -/
theorem runTicks_closed (len c N : Nat) (hlen : 1 ≤ len) (hc : 1 ≤ c) :
    runTicks len c N =
      if N ≤ (len - 1) / c then { position := N * c, isPlaying := true }
      else { position := ((len - 1) / c) * c, isPlaying := false } := by
  set q := (len - 1) / c with hq
  have hqc : q * c ≤ len - 1 := Nat.div_mul_le_self (len - 1) c
  have hlenq : len ≤ q * c + c := by
    have hmod : (len - 1) % c < c := Nat.mod_lt _ hc
    have hdm : c * q + (len - 1) % c = len - 1 := Nat.div_add_mod (len - 1) c
    have hcomm : c * q = q * c := Nat.mul_comm _ _
    omega
  induction N with
  | zero => simp [runTicks]
  | succ n ih =>
    rw [runTicks, ih]
    by_cases h : n ≤ q
    · rcases Nat.lt_or_ge n q with hlt | hge
      · have hmul : (n + 1) * c ≤ q * c := Nat.mul_le_mul_right c hlt
        have hstep : ¬ len ≤ n * c + c := by
          have h1 : n * c + c = (n + 1) * c := by ring
          omega
        rw [if_pos h, tickState_playing, if_neg hstep,
          if_pos (show n + 1 ≤ q from hlt)]
        have h1 : n * c + c = (n + 1) * c := by ring
        rw [h1]
      · have hnq : n = q := le_antisymm h hge
        have hstep : len ≤ n * c + c := by rw [hnq]; exact hlenq
        rw [if_pos h, tickState_playing, if_pos hstep, if_neg (by omega), hnq]
    · rw [if_neg h, tickState_stopped, if_neg (by omega)]

/-- C1 (corrected): the original claim's landing formula
`position = min(N*c, tokenCount-1)` is false on the code: with 5 tokens,
chunk size 3 and 2 ticks the reader freezes at position 3, not
`min(6, 4) = 4`. -/
theorem c1_counterexample :
    ¬ (runTicks 5 3 2).position = min (2 * 3) (5 - 1) := by
  decide

/-- C1 (amended): for a non-empty token sequence, chunk size `c ≥ 1` and `N`
ticks, playback lands at `position = min(N*c, c*⌊(tokenCount-1)/c⌋)` — the
largest reachable multiple of `c` below `tokenCount`, which equals
`tokenCount-1` only when `c` divides `tokenCount-1`; it enters Finished
exactly when `N*c` reaches or exceeds `tokenCount`; and on any terminal tick
taken from a playing state with `startedAt` set, exactly
`sessionEnded(wpm, tokenCount, (now - startedAt)/1000)` is emitted. -/
theorem c1_chunk_landing (len c N : Nat) (s : PacerState) (t0 now : ℚ) (wpm : Nat)
    (hlen : 1 ≤ len) (hc : 1 ≤ c)
    (hs : s.isPlaying = true) (hterm : len ≤ s.position + c) :
    (runTicks len c N).position = min (N * c) (((len - 1) / c) * c) ∧
    ((runTicks len c N).isPlaying = false ↔ len ≤ N * c) ∧
    (tick len c (some t0) wpm now s).2 =
      [PacerEvent.sessionEnded wpm len ((now - t0) / 1000)] := by
  have hqc : ((len - 1) / c) * c ≤ len - 1 := Nat.div_mul_le_self (len - 1) c
  have hlenq : len ≤ ((len - 1) / c) * c + c := by
    have hmod : (len - 1) % c < c := Nat.mod_lt _ hc
    have hdm := Nat.div_add_mod (len - 1) c
    have hcomm : c * ((len - 1) / c) = ((len - 1) / c) * c := Nat.mul_comm _ _
    omega
  rw [runTicks_closed len c N hlen hc]
  refine ⟨?_, ?_, ?_⟩
  · by_cases h : N ≤ (len - 1) / c
    · rw [if_pos h]
      exact (min_eq_left (Nat.mul_le_mul_right c h)).symm
    · rw [if_neg h]
      exact (min_eq_right (Nat.mul_le_mul_right c (by omega))).symm
  · by_cases h : N ≤ (len - 1) / c
    · rw [if_pos h]
      have hNc : N * c ≤ ((len - 1) / c) * c := Nat.mul_le_mul_right c h
      show true = false ↔ len ≤ N * c
      constructor
      · intro hfalse
        exact Bool.noConfusion hfalse
      · intro hle
        exact absurd hle (by omega)
    · rw [if_neg h]
      have hNc : ((len - 1) / c) * c + c ≤ N * c := by
        have h1 : ((len - 1) / c + 1) * c ≤ N * c := Nat.mul_le_mul_right c (by omega)
        have h2 : ((len - 1) / c + 1) * c = ((len - 1) / c) * c + c := by ring
        omega
      show false = false ↔ len ≤ N * c
      exact ⟨fun _ => by omega, fun _ => rfl⟩
  · simp [tick, hs, hterm]

/-- Witness for `c1_chunk_landing`: 4 tokens, chunk size 3, 2 ticks, a
terminal tick from position 3 with `startedAt = 0`. -/
theorem c1_chunk_landing_witness :
    (1 ≤ 4 ∧ 1 ≤ 3 ∧
      (PacerState.mk 3 true).isPlaying = true ∧ 4 ≤ (PacerState.mk 3 true).position + 3) ∧
    ((runTicks 4 3 2).position = min (2 * 3) (((4 - 1) / 3) * 3) ∧
      ((runTicks 4 3 2).isPlaying = false ↔ 4 ≤ 2 * 3) ∧
      (tick 4 3 (some 0) 600 0 (PacerState.mk 3 true)).2 =
        [PacerEvent.sessionEnded 600 4 ((0 - 0) / 1000)]) :=
  ⟨⟨by decide, by decide, rfl, by decide⟩,
    c1_chunk_landing 4 3 2 (PacerState.mk 3 true) 0 0 600
      (by decide) (by decide) rfl (by decide)⟩

/-- C2 (corrected): the original claim is false on the code.  Grading with
an unknown rating does not leave the entry unmodified: at the concrete entry
`sampleWord` (whose `nextReview` is `0`) and grading moment `5`, the update
is still applied and `nextReview` changes (to the grading moment). -/
theorem c2_counterexample :
    (grade sampleWord "bogus" 5).nextReview ≠ sampleWord.nextReview := by
  decide

/-- C2 (amended): an unknown rating is not rejected at runtime (the
TypeScript signature restricts ratings statically, and no branch signals an
error); the update is still applied with interval `0` and unchanged
proficiency, so the entry's proficiency becomes `proficiency || 0` and its
`nextReview` is set to the grading moment `now`. -/
theorem c2_unknown_rating (v : VocabWord) (rating : String) (now : Nat)
    (h1 : rating ≠ "hard") (h2 : rating ≠ "good") (h3 : rating ≠ "easy") :
    grade v rating now =
      { v with proficiency := some (v.proficiency.getD 0),
               nextReview := some now } := by
  simp [grade, h1, h2, h3]

/-- Witness for `c2_unknown_rating` at `sampleWord`, rating `"bogus"`,
grading moment `5`. -/
theorem c2_unknown_rating_witness :
    (("bogus" : String) ≠ "hard" ∧ ("bogus" : String) ≠ "good" ∧
      ("bogus" : String) ≠ "easy") ∧
    grade sampleWord "bogus" 5 =
      { sampleWord with proficiency := some (sampleWord.proficiency.getD 0),
                        nextReview := some 5 } :=
  ⟨⟨by decide, by decide, by decide⟩,
    c2_unknown_rating sampleWord "bogus" 5 (by decide) (by decide) (by decide)⟩

/-- C4: for an entry with proficiency `p ∈ [0,5]`, grading yields
`clamp(p + delta, 0, 5)` with delta `-1/+1/+2` for hard/good/easy, and
`nextReview = now + interval*60000` with interval `10/1440/4320` minutes. -/
theorem c4_grade_valid (v : VocabWord) (p : Int) (now : Nat)
    (hp : v.proficiency = some p) (hp0 : 0 ≤ p) (hp5 : p ≤ 5) :
    (grade v "hard" now).proficiency = some (max 0 (min 5 (p - 1))) ∧
    (grade v "hard" now).nextReview = some (now + 10 * 60000) ∧
    (grade v "good" now).proficiency = some (max 0 (min 5 (p + 1))) ∧
    (grade v "good" now).nextReview = some (now + 1440 * 60000) ∧
    (grade v "easy" now).proficiency = some (max 0 (min 5 (p + 2))) ∧
    (grade v "easy" now).nextReview = some (now + 4320 * 60000) := by
  refine ⟨?_, ?_, ?_, ?_, ?_, ?_⟩ <;> simp [grade, hp] <;> omega

/-- Witness for `c4_grade_valid` at `sampleWord2` (proficiency 2): grading
`"good"` gives proficiency 3 and `nextReview = now + 1440*60000`. -/
theorem c4_grade_valid_witness :
    (sampleWord2.proficiency = some 2 ∧ (0 : Int) ≤ 2 ∧ (2 : Int) ≤ 5) ∧
    ((grade sampleWord2 "hard" 0).proficiency = some (max 0 (min 5 (2 - 1))) ∧
      (grade sampleWord2 "hard" 0).nextReview = some (0 + 10 * 60000) ∧
      (grade sampleWord2 "good" 0).proficiency = some (max 0 (min 5 (2 + 1))) ∧
      (grade sampleWord2 "good" 0).nextReview = some (0 + 1440 * 60000) ∧
      (grade sampleWord2 "easy" 0).proficiency = some (max 0 (min 5 (2 + 2))) ∧
      (grade sampleWord2 "easy" 0).nextReview = some (0 + 4320 * 60000)) :=
  ⟨⟨by decide, by decide, by decide⟩,
    c4_grade_valid sampleWord2 2 0 (by decide) (by decide) (by decide)⟩

/-- C5: the due queue holds exactly the entries of the library whose
`nextReview` is at or before `now` (so an entry with `nextReview = now` is
included), and it is ordered by entry creation date descending; no other
field (in particular not proficiency) orders it. -/
theorem c5_review_queue (library : List LibraryItem) (now : Nat)
    (v : VocabWord) (t : Nat) (ht : v.nextReview = some t) :
    (v ∈ reviewQueue library now ↔
      v ∈ library.flatMap (fun item => item.vocabulary) ∧ t ≤ now) ∧
    (reviewQueue library now).Pairwise (fun a b => b.date ≤ a.date) := by
  constructor
  · have hmem : v ∈ allVocab library ↔
        v ∈ library.flatMap fun item => item.vocabulary :=
      (List.perm_insertionSort dateDesc _).mem_iff
    have hdue : isDue v now = true ↔ t ≤ now := by
      simp only [isDue, ht, Bool.or_eq_true, beq_iff_eq, decide_eq_true_eq]
      omega
    rw [reviewQueue, List.mem_filter, hmem, hdue]
  · exact (List.sorted_insertionSort dateDesc _).filter _

/-- Witness for `c5_review_queue` at the concrete `sampleLibrary` and
`sampleWord` (due at `0`), at time `5`. -/
theorem c5_review_queue_witness :
    sampleWord.nextReview = some 0 ∧
    ((sampleWord ∈ reviewQueue sampleLibrary 5 ↔
      sampleWord ∈ sampleLibrary.flatMap (fun item => item.vocabulary) ∧ 0 ≤ 5) ∧
    (reviewQueue sampleLibrary 5).Pairwise fun a b => b.date ≤ a.date) :=
  ⟨by decide, c5_review_queue sampleLibrary 5 sampleWord 0 (by decide)⟩

/-- C6: whenever a grade with a valid rating is applied — which the review
workflow only does to entries of the due queue, i.e. entries with
`nextReview` absent or `≤ now` — the resulting `nextReview` is strictly
after the grading moment and strictly after the entry's previous
`nextReview` (absent read as 0). -/
theorem c6_nextReview_increases (v : VocabWord) (rating : String) (now : Nat)
    (hdue : isDue v now = true)
    (hr : rating = "hard" ∨ rating = "good" ∨ rating = "easy") :
    now < (grade v rating now).nextReview.getD 0 ∧
    v.nextReview.getD 0 < (grade v rating now).nextReview.getD 0 := by
  have hold : v.nextReview.getD 0 ≤ now := by
    cases hnr : v.nextReview with
    | none => simp
    | some t =>
      simp only [isDue, hnr, Bool.or_eq_true, beq_iff_eq, decide_eq_true_eq] at hdue
      simp only [Option.getD_some]
      omega
  rcases hr with h | h | h <;> subst h <;>
    simp only [grade] <;> simp <;> omega

/-- Witness for `c6_nextReview_increases` at `sampleWord` (due at `0`),
rating `"good"`, grading moment `5`. -/
theorem c6_nextReview_increases_witness :
    (isDue sampleWord 5 = true ∧
      (("good" : String) = "hard" ∨ ("good" : String) = "good" ∨
        ("good" : String) = "easy")) ∧
    (5 < (grade sampleWord "good" 5).nextReview.getD 0 ∧
      sampleWord.nextReview.getD 0 < (grade sampleWord "good" 5).nextReview.getD 0) :=
  ⟨⟨by decide, Or.inr (Or.inl rfl)⟩,
    c6_nextReview_increases sampleWord "good" 5 (by decide) (Or.inr (Or.inl rfl))⟩

/-- C10: an entry whose `nextReview` is absent or `0` (legacy
`VocabularyWord` entries have no SRS fields) is immediately due — `isDue`
holds at every `now` and the entry is in the review queue — and grading an
entry with absent proficiency behaves exactly as if its proficiency were
`0`. -/
theorem c10_legacy_defaults (v : VocabWord) (library : List LibraryItem)
    (now gnow : Nat)
    (hnr : v.nextReview = none ∨ v.nextReview = some 0)
    (hp : v.proficiency = none)
    (hmem : v ∈ library.flatMap fun item => item.vocabulary) :
    isDue v now = true ∧
    v ∈ reviewQueue library now ∧
    (grade v "hard" gnow).proficiency =
      (grade { v with proficiency := some 0 } "hard" gnow).proficiency ∧
    (grade v "good" gnow).proficiency =
      (grade { v with proficiency := some 0 } "good" gnow).proficiency ∧
    (grade v "easy" gnow).proficiency =
      (grade { v with proficiency := some 0 } "easy" gnow).proficiency := by
  have hdue : isDue v now = true := by
    rcases hnr with h | h <;> simp [isDue, h]
  refine ⟨hdue, ?_, ?_, ?_, ?_⟩
  · rw [reviewQueue, List.mem_filter]
    exact ⟨(List.perm_insertionSort dateDesc _).mem_iff.mpr hmem, hdue⟩
  all_goals simp [grade, hp]

/-- Witness for `c10_legacy_defaults` at `legacyWord` inside
`sampleLibrary`. -/
theorem c10_legacy_defaults_witness :
    ((legacyWord.nextReview = none ∨ legacyWord.nextReview = some 0) ∧
      legacyWord.proficiency = none ∧
      legacyWord ∈ sampleLibrary.flatMap fun item => item.vocabulary) ∧
    (isDue legacyWord 0 = true ∧
      legacyWord ∈ reviewQueue sampleLibrary 0 ∧
      (grade legacyWord "hard" 0).proficiency =
        (grade { legacyWord with proficiency := some 0 } "hard" 0).proficiency ∧
      (grade legacyWord "good" 0).proficiency =
        (grade { legacyWord with proficiency := some 0 } "good" 0).proficiency ∧
      (grade legacyWord "easy" 0).proficiency =
        (grade { legacyWord with proficiency := some 0 } "easy" 0).proficiency) :=
  ⟨⟨Or.inl (by decide), by decide, by decide⟩,
    c10_legacy_defaults legacyWord sampleLibrary 0 0 (Or.inl (by decide))
      (by decide) (by decide)⟩

/-- C9 (corrected): the original claim is false on the code.  The regex
`\W` leaves the underscore inside the core word, so the leading
non-alphanumeric run of `"_ab"` is *not* separated: at `boldRatio = 1/2`
the code bolds `"_a"` out of the core `"_ab"` rather than producing
prefix `"_"`, bold `"a"`, light `"b"` as the claim dictates. -/
theorem c9_counterexample :
    bionicWordRender ['_', 'a', 'b'] (1 / 2) ≠
      BionicRender.emphasized ['_'] ['a'] ['b'] [] := by
  have hceil : (⌈(3 : ℚ) * (1 / 2)⌉ : ℤ) = 2 := by
    rw [show (3 : ℚ) * (1 / 2) = 3 / 2 by norm_num, Int.ceil_eq_iff]
    constructor <;> norm_num
  have hbl : boldLen 3 (1 / 2) = 2 := by
    simp only [boldLen]
    rw [show ((3 : Nat) : ℚ) = 3 by norm_num, hceil]
    rfl
  have hcore : bionicCore ['_', 'a', 'b'] = ['_', 'a', 'b'] := by decide
  have hlen : (['_', 'a', 'b'] : List Char).length = 3 := rfl
  have hlhs : bionicWordRender ['_', 'a', 'b'] (1 / 2) =
      BionicRender.emphasized [] ['_', 'a'] ['b'] [] := by
    simp only [bionicWordRender, hcore, hlen, hbl]
    decide
  rw [hlhs]
  decide

theorem all_not_wordChar_takeWhile (l : List Char) :
    (l.takeWhile fun c => !isWordChar c).all (fun c => !isWordChar c) = true :=
  List.all_eq_true.mpr fun _ hx =>
    List.mem_takeWhile_imp (p := fun c => !isWordChar c) hx

/-- C9 (amended): for every whitespace-free token and `boldRatio ∈ [0,1]`,
the transform separates the leading/trailing runs of non-word characters
(ASCII alphanumerics and the underscore count as word characters, per the
regex `\W`) from a core word; an empty core returns the token unmodified as
a single non-emphasized unit; otherwise the result is
`prefixRun + bold + light + suffixRun` with the runs preserved verbatim,
where `bold`/`light` split the core at
`boldLength = max(1, ceil(coreLength * boldRatio))`, a well-formed index
(`1 ≤ boldLength ≤ coreLength`).  The spec's example holds:
`emphasize("testing", 0.5)` bolds `"test"` and leaves `"ing"` light. -/
theorem c9_bionic_transform (part : List Char) (r : ℚ)
    (hw : part.all (fun c => !c.isWhitespace) = true)
    (hr0 : 0 ≤ r) (hr1 : r ≤ 1) :
    bionicPre part ++ bionicCore part ++ bionicSuf part = part ∧
    (bionicPre part).all (fun c => !isWordChar c) = true ∧
    (bionicSuf part).all (fun c => !isWordChar c) = true ∧
    (bionicCore part = [] → bionicWordRender part r = BionicRender.plain part) ∧
    (bionicCore part ≠ [] →
      bionicWordRender part r =
        BionicRender.emphasized (bionicPre part)
          ((bionicCore part).take (boldLen (bionicCore part).length r))
          ((bionicCore part).drop (boldLen (bionicCore part).length r))
          (bionicSuf part) ∧
      ((bionicCore part).take (boldLen (bionicCore part).length r)) ++
        ((bionicCore part).drop (boldLen (bionicCore part).length r)) =
          bionicCore part ∧
      1 ≤ boldLen (bionicCore part).length r ∧
      boldLen (bionicCore part).length r ≤ (bionicCore part).length) ∧
    bionicWordRender "testing".toList (1 / 2) =
      BionicRender.emphasized [] "test".toList "ing".toList [] := by
  have hws : ¬(part ≠ [] ∧ (part.all fun c => c.isWhitespace) = true) := by
    rintro ⟨hne, hall⟩
    obtain ⟨c, rest, rfl⟩ := List.exists_cons_of_ne_nil hne
    rw [List.all_cons, Bool.and_eq_true] at hw hall
    rw [hall.1] at hw
    exact Bool.noConfusion hw.1
  refine ⟨?_, ?_, ?_, ?_, ?_, ?_⟩
  · have h2 : bionicCore part ++ bionicSuf part = bionicRest part := by
      rw [bionicCore, bionicSuf, ← List.reverse_append,
        List.takeWhile_append_dropWhile, List.reverse_reverse]
    rw [List.append_assoc, h2, bionicPre, bionicRest,
      List.takeWhile_append_dropWhile]
  · exact all_not_wordChar_takeWhile part
  · rw [bionicSuf, List.all_reverse]
    exact all_not_wordChar_takeWhile _
  · intro hcore
    simp only [bionicWordRender, hcore, if_neg hws]
    simp
  · intro hcore
    have hlen1 : 1 ≤ (bionicCore part).length :=
      List.length_pos.mpr hcore
    have hceil_le : ⌈((bionicCore part).length : ℚ) * r⌉ ≤
        ((bionicCore part).length : ℤ) := by
      have hx : ((bionicCore part).length : ℚ) * r ≤
          ((bionicCore part).length : ℚ) := by
        calc ((bionicCore part).length : ℚ) * r
            ≤ ((bionicCore part).length : ℚ) * 1 :=
              mul_le_mul_of_nonneg_left hr1 (by positivity)
          _ = ((bionicCore part).length : ℚ) := mul_one _
      calc ⌈((bionicCore part).length : ℚ) * r⌉
          ≤ ⌈((bionicCore part).length : ℚ)⌉ := Int.ceil_le_ceil hx
        _ = ((bionicCore part).length : ℤ) := Int.ceil_natCast _
    refine ⟨?_, List.take_append_drop _ _, ?_, ?_⟩
    · simp only [bionicWordRender, if_neg hws, if_neg hcore]
    · simp only [boldLen]
      have h1 := le_max_left 1 ⌈((bionicCore part).length : ℚ) * r⌉
      omega
    · simp only [boldLen]
      have h1 : max 1 ⌈((bionicCore part).length : ℚ) * r⌉ ≤
          ((bionicCore part).length : ℤ) :=
        max_le (by exact_mod_cast hlen1) hceil_le
      omega
  · have hceil : (⌈(7 : ℚ) * (1 / 2)⌉ : ℤ) = 4 := by
      rw [show (7 : ℚ) * (1 / 2) = 7 / 2 by norm_num, Int.ceil_eq_iff]
      constructor <;> norm_num
    have hbl : boldLen 7 (1 / 2) = 4 := by
      simp only [boldLen]
      rw [show ((7 : Nat) : ℚ) = 7 by norm_num, hceil]
      rfl
    have hcore : bionicCore "testing".toList = "testing".toList := by decide
    have hlen : ("testing".toList : List Char).length = 7 := rfl
    simp only [bionicWordRender, hcore, hlen, hbl]
    decide

/-- Witness for `c9_bionic_transform` at the token `"a!"` and ratio `1`. -/
theorem c9_bionic_transform_witness :
    (((['a', '!'] : List Char).all fun c => !c.isWhitespace) = true ∧
      (0 : ℚ) ≤ 1 ∧ (1 : ℚ) ≤ 1) ∧
    (bionicPre ['a', '!'] ++ bionicCore ['a', '!'] ++ bionicSuf ['a', '!'] =
        ['a', '!'] ∧
      (bionicPre ['a', '!']).all (fun c => !isWordChar c) = true ∧
      (bionicSuf ['a', '!']).all (fun c => !isWordChar c) = true ∧
      (bionicCore ['a', '!'] = [] →
        bionicWordRender ['a', '!'] 1 = BionicRender.plain ['a', '!']) ∧
      (bionicCore ['a', '!'] ≠ [] →
        bionicWordRender ['a', '!'] 1 =
          BionicRender.emphasized (bionicPre ['a', '!'])
            ((bionicCore ['a', '!']).take
              (boldLen (bionicCore ['a', '!']).length 1))
            ((bionicCore ['a', '!']).drop
              (boldLen (bionicCore ['a', '!']).length 1))
            (bionicSuf ['a', '!']) ∧
        ((bionicCore ['a', '!']).take
            (boldLen (bionicCore ['a', '!']).length 1)) ++
          ((bionicCore ['a', '!']).drop
            (boldLen (bionicCore ['a', '!']).length 1)) =
            bionicCore ['a', '!'] ∧
        1 ≤ boldLen (bionicCore ['a', '!']).length 1 ∧
        boldLen (bionicCore ['a', '!']).length 1 ≤
          (bionicCore ['a', '!']).length) ∧
      bionicWordRender "testing".toList (1 / 2) =
        BionicRender.emphasized [] "test".toList "ing".toList []) :=
  ⟨⟨by decide, zero_le_one, le_refl 1⟩,
    c9_bionic_transform ['a', '!'] 1 (by decide) zero_le_one (le_refl 1)⟩

/-- C8: the ORP split.  `getORPIndex` agrees with the spec's bucket rule,
takes the values `0,1,2,3,4` at lengths `1,5,9,13,14`, the rendered split is
exactly the `[0:orp] / [orp:orp+1] / [orp+1:]` slices, and the empty token
splits into three empty parts. -/
theorem c8_orp_split (word : List Char) :
    getORPIndex word.length = orpSpec word.length ∧
    (getORPIndex 0 = 0 ∧ getORPIndex 1 = 0 ∧ getORPIndex 5 = 1 ∧
      getORPIndex 9 = 2 ∧ getORPIndex 13 = 3 ∧ getORPIndex 14 = 4) ∧
    renderSingleWord word =
      (word.take (getORPIndex word.length),
        (word.drop (getORPIndex word.length)).take 1,
        word.drop (getORPIndex word.length + 1)) ∧
    renderSingleWord [] = ([], [], []) := by
  exact ⟨rfl, by decide, rfl, rfl⟩

end BreezeReader
